import Mathlib

/-!
Verification of the indexing/matching core of the jpeg-to-raw-matcher
repository (src/file_scanner.py, src/indexer.py, src/matcher.py,
src/copier.py), as a shallow embedding in Lean.

Modelling conventions:
* Python strings (paths, basenames) are modelled as `List Char` (`Str`);
  `str.lower()` is `toLowerStr` (per-character `Char.toLower`, which agrees
  with Python on ASCII).
* `datetime` values are modelled as an abstract `Nat` tick count; equality of
  datetimes is equality of the ticks.  `datetime.isoformat` /
  `datetime.fromisoformat` form a bijection on such values, so the cache
  round-trip of a timestamp is modelled as the identity on the tick.
* Python `dict` (which preserves insertion order) is modelled as an
  association list of `(key, value)` pairs; a freshly inserted key goes to
  the end, writes to an existing key stay in place.
* The filesystem is modelled as a list of `FsFile` entries giving, for each
  file, its path, its `stat().st_size`, and the capture timestamp that the
  (external) Exif reader yields for it (`none` both for "no Exif field" and
  for "reader failed", which the indexer treats identically).
* Python `set(...)` values are modelled by deduplicated lists
  (`dedupList`); set iteration order, which Python leaves unspecified, is
  canonicalised to first-occurrence order.  The thread pool in
  `_process_files_parallel` is folded in submission order — the code only
  ever aggregates its results into order-insensitive structures.
-/

/-- Python `str`, modelled as a list of characters. -/
abbrev Str := List Char

/-- Python `datetime`, modelled as an abstract tick count. -/
abbrev PyDateTime := Nat

/-- `str.lower()` (ASCII-faithful). -/
def toLowerStr (s : Str) : Str := s.map Char.toLower

/-- The final path component: everything after the last `/`
(`pathlib.PurePath.name` for the normalised paths the tool handles). -/
def pathNameOf (p : Str) : Str :=
  p.foldl (fun acc c => if c = '/' then [] else acc ++ [c]) []

/-- Index of the last `.` in a character list (Python `str.rfind('.')`,
with `none` in place of `-1`). -/
def lastDotAux : Str → Nat → Option Nat → Option Nat
  | [], _, acc => acc
  | c :: cs, i, acc => lastDotAux cs (i + 1) (if c = '.' then some i else acc)

def lastDot (cs : Str) : Option Nat := lastDotAux cs 0 none

/-- `pathlib.PurePath.suffix`: the last extension of the final component,
empty unless the last dot is at position `0 < i < len(name) - 1`. -/
def pathSuffix (p : Str) : Str :=
  let name := pathNameOf p
  match lastDot name with
  | some i => if 0 < i ∧ i < name.length - 1 then name.drop i else []
  | none => []

/-- `pathlib.PurePath.stem`: final component without `pathSuffix`. -/
def pathStem (p : Str) : Str :=
  let name := pathNameOf p
  match lastDot name with
  | some i => if 0 < i ∧ i < name.length - 1 then name.take i else name
  | none => name

/-- `FileScanner.get_basename`: `file_path.stem.lower()`. -/
def get_basename (p : Str) : Str := toLowerStr (pathStem p)

/-- `FileScanner.RAW_EXTENSIONS` — the exact 24-element set from the source
(lower-case and upper-case spelling of each of the 12 raw formats). -/
def RAW_EXTENSIONS : List Str :=
  [".cr2".data, ".CR2".data,
   ".cr3".data, ".CR3".data,
   ".nef".data, ".NEF".data,
   ".arw".data, ".ARW".data,
   ".raf".data, ".RAF".data,
   ".orf".data, ".ORF".data,
   ".rw2".data, ".RW2".data,
   ".pef".data, ".PEF".data,
   ".dng".data, ".DNG".data,
   ".rwl".data, ".RWL".data,
   ".3fr".data, ".3FR".data,
   ".iiq".data, ".IIQ".data]

/-- `FileScanner.JPEG_EXTENSIONS`. -/
def JPEG_EXTENSIONS : List Str :=
  [".jpg".data, ".JPG".data, ".jpeg".data, ".JPEG".data]

/-- `FileScanner.is_raw_file`: `file_path.suffix in self.RAW_EXTENSIONS`
(a case-sensitive membership test against the fixed set). -/
def is_raw_file (p : Str) : Bool := decide (pathSuffix p ∈ RAW_EXTENSIONS)

/-- `FileScanner.is_jpeg_file`. -/
def is_jpeg_file (p : Str) : Bool := decide (pathSuffix p ∈ JPEG_EXTENSIONS)

/-- One filesystem entry visible to the indexer: its path, its
`stat().st_size`, and the capture timestamp the Exif reader yields for it
(`none` when absent or when the read fails). -/
structure FsFile where
  path : Str
  size : Nat
  ts : Option PyDateTime
deriving DecidableEq, Repr

/-- Lexicographic comparison on character lists (the order `sorted()` uses
on the path strings; only the fact that sorting permutes matters below). -/
def strLe : Str → Str → Bool
  | [], _ => true
  | _ :: _, [] => false
  | a :: as, b :: bs => if a = b then strLe as bs else decide (a.val < b.val)

def insertLe (p : Str) : List Str → List Str
  | [] => [p]
  | q :: qs => if strLe p q then p :: q :: qs else q :: insertLe p qs

/-- Insertion sort implementing Python `sorted` over path strings. -/
def sortStrs (l : List Str) : List Str := l.foldr insertLe []

/-- `FileScanner.scan_raw_files` over the filesystem model: every entry is a
regular file, so the scan keeps the paths whose suffix is a RAW extension
and returns them sorted.  (The `recursive` flag only selects which files are
visible; the model's `fs` list is that visible set.) -/
def scan_raw_files (fs : List FsFile) : List Str :=
  sortStrs ((fs.map FsFile.path).filter is_raw_file)

/-- `FileScanner.scan_jpeg_files` over the filesystem model. -/
def scan_jpeg_files (fs : List FsFile) : List Str :=
  sortStrs ((fs.map FsFile.path).filter is_jpeg_file)

/-! ## Data model (src/models.py) -/

/-- `models.RawFileInfo`. -/
structure RawFileInfo where
  path : Str
  basename : Str
  capture_datetime : Option PyDateTime
  file_size : Nat
deriving DecidableEq, Repr

/-- `models.JpegFileInfo`. -/
structure JpegFileInfo where
  path : Str
  basename : Str
  capture_datetime : Option PyDateTime
deriving DecidableEq, Repr

/-- The two values the source stores in `MatchResult.match_method`
(the strings 'basename_and_datetime' and 'basename_only'). -/
inductive MatchMethod where
  | basename_and_datetime
  | basename_only
deriving DecidableEq, Repr

/-- `models.MatchResult`. -/
structure MatchResult where
  jpeg_path : Str
  raw_path : Str
  match_method : MatchMethod
deriving DecidableEq, Repr

/-! ## Ordered dictionaries

Python `dict` preserves insertion order: a new key is appended at the end,
an existing key keeps its position.  The index only ever mutates buckets via
`d.setdefault`-style creation followed by `append`, modelled by
`dictAppend`. -/

/-- `if k not in d: d[k] = []` followed by `d[k].append(v)`. -/
def dictAppend {α β : Type} [DecidableEq α] :
    List (α × List β) → α → β → List (α × List β)
  | [], k, v => [(k, [v])]
  | (k₀, vs) :: rest, k, v =>
    if k = k₀ then (k₀, vs ++ [v]) :: rest
    else (k₀, vs) :: dictAppend rest k v

/-- `d.get(k, [])`. -/
def dictGet {α β : Type} [DecidableEq α] :
    List (α × List β) → α → List β
  | [], _ => []
  | (k₀, vs) :: rest, k => if k = k₀ then vs else dictGet rest k

/-! ## `indexer.RawFileIndex` -/

/-- `indexer.RawFileIndex` (the `logger` field is elided).  `file_count` is
a Python `int`, hence `Int` (`remove` decrements it unconditionally when
anything was removed). -/
structure RawFileIndex where
  by_basename : List (Str × List RawFileInfo)
  by_datetime : List (PyDateTime × List RawFileInfo)
  source_directory : Option Str
  last_updated : Option PyDateTime
  file_count : Int
deriving DecidableEq, Repr

/-- `RawFileIndex.__init__`. -/
def RawFileIndex.empty : RawFileIndex :=
  { by_basename := [], by_datetime := [], source_directory := none,
    last_updated := none, file_count := 0 }

/-- `RawFileIndex.add`. -/
def RawFileIndex.add (idx : RawFileIndex) (info : RawFileInfo) : RawFileIndex :=
  { idx with
    by_basename := dictAppend idx.by_basename info.basename info
    by_datetime :=
      match info.capture_datetime with
      | some dt => dictAppend idx.by_datetime dt info
      | none => idx.by_datetime
    file_count := idx.file_count + 1 }

/-- One pass of `RawFileIndex.remove` over the snapshot `list(d.items())` of
one of the two lookup maps: filter `file_path` out of every bucket, drop a
key whose bucket both shrank and became empty, and report whether any entry
was removed anywhere. -/
def bucketsRemove {α : Type} (p : Str) :
    List (α × List RawFileInfo) → List (α × List RawFileInfo) × Bool
  | [] => ([], false)
  | (k, infos) :: rest =>
    let kept := infos.filter (fun info => info.path ≠ p)
    let tail := bucketsRemove p rest
    if kept.length < infos.length then
      (if kept.isEmpty then tail.1 else (k, kept) :: tail.1, true)
    else
      ((k, infos) :: tail.1, tail.2)

/-- `RawFileIndex.remove`: returns the mutated index and the `removed`
flag.  `file_count` is decremented by exactly one whenever the flag is set,
regardless of how many entries were filtered out. -/
def RawFileIndex.remove (idx : RawFileIndex) (p : Str) : RawFileIndex × Bool :=
  let bb := bucketsRemove p idx.by_basename
  let bd := bucketsRemove p idx.by_datetime
  let removed := bb.2 || bd.2
  ({ idx with
      by_basename := bb.1
      by_datetime := bd.1
      file_count := if removed then idx.file_count - 1 else idx.file_count },
   removed)

/-- `RawFileIndex.find_by_basename`: `self.by_basename.get(basename.lower(), [])`. -/
def RawFileIndex.find_by_basename (idx : RawFileIndex) (basename : Str) :
    List RawFileInfo :=
  dictGet idx.by_basename (toLowerStr basename)

/-- `RawFileIndex.find_by_datetime`. -/
def RawFileIndex.find_by_datetime (idx : RawFileIndex) (dt : PyDateTime) :
    List RawFileInfo :=
  dictGet idx.by_datetime dt

/-- `RawFileIndex.get_all_files`: concatenation of the `by_basename`
buckets in key-insertion order. -/
def RawFileIndex.get_all_files (idx : RawFileIndex) : List RawFileInfo :=
  (idx.by_basename.map Prod.snd).flatten

/-! ## Serialization (`to_dict` / `from_dict`) -/

/-- One element of the `files` list in the cached JSON document.  The
scalar JSON encodings are invertible (`str(path)`, `datetime.isoformat`),
so each field is modelled by its decoded value; `capture_datetime` is the
JSON `null` / ISO-string alternative. -/
structure FileData where
  path : Str
  basename : Str
  capture_datetime : Option PyDateTime
  file_size : Nat
deriving DecidableEq, Repr

/-- The JSON document produced by `RawFileIndex.to_dict`. -/
structure IndexDict where
  source_directory : Option Str
  last_updated : Option PyDateTime
  file_count : Int
  files : List FileData
deriving DecidableEq, Repr

/-- `RawFileIndex.to_dict`. -/
def RawFileIndex.to_dict (idx : RawFileIndex) : IndexDict :=
  { source_directory := idx.source_directory
    last_updated := idx.last_updated
    file_count := idx.file_count
    files := idx.get_all_files.map fun info =>
      { path := info.path, basename := info.basename,
        capture_datetime := info.capture_datetime,
        file_size := info.file_size } }

/-- `RawFileIndex.from_dict`.  The Python guards are truthiness tests on the
decoded strings: an absent or empty `source_directory` leaves the field
`None` (a non-empty path string decodes to itself), and an absent ISO
timestamp string leaves `last_updated` / `capture_datetime` `None`.
`file_count` is never read from `data`: it accumulates through `add`. -/
def RawFileIndex.from_dict (data : IndexDict) : RawFileIndex :=
  let idx₀ := RawFileIndex.empty
  let idx₁ :=
    match data.source_directory with
    | some s => if s = [] then idx₀ else { idx₀ with source_directory := some s }
    | none => idx₀
  let idx₂ :=
    match data.last_updated with
    | some t => { idx₁ with last_updated := some t }
    | none => idx₁
  data.files.foldl
    (fun idx fd =>
      idx.add
        { path := fd.path, basename := fd.basename,
          capture_datetime := fd.capture_datetime, file_size := fd.file_size })
    idx₂

/-! ## `indexer.Indexer` -/

/-- Deduplication keeping first occurrences: the model of `set(...)`
construction (iteration order canonicalised to first-occurrence order). -/
def dedupAux {α : Type} [DecidableEq α] : List α → List α → List α
  | [], _ => []
  | a :: l, seen =>
    if a ∈ seen then dedupAux l seen else a :: dedupAux l (a :: seen)

def dedupList {α : Type} [DecidableEq α] (l : List α) : List α := dedupAux l []

/-- `fs.find?`: the `file_path.stat()` result and the Exif read for one
path, bundled.  `none` models a path that is not on disk (a `stat` that
raises). -/
def fsFind (fs : List FsFile) (p : Str) : Option FsFile :=
  fs.find? (fun f => f.path = p)

/-- `Indexer._process_single_file`: `stat` + `get_basename` + Exif read.
A failing `stat` returns `None`; a failing Exif read merely leaves
`capture_datetime = None` (already folded into `FsFile.ts`). -/
def _process_single_file (fs : List FsFile) (p : Str) : Option RawFileInfo :=
  match fsFind fs p with
  | none => none
  | some f =>
    some { path := p, basename := get_basename p,
           capture_datetime := f.ts, file_size := f.size }

/-- `Indexer._process_files_parallel`: the worker pool maps
`_process_single_file` over the batch and keeps the non-`None` results;
completion order is canonicalised to submission order (the results are only
ever folded into order-insensitive index structure). -/
def _process_files_parallel (fs : List FsFile) (file_paths : List Str) :
    List RawFileInfo :=
  file_paths.filterMap (_process_single_file fs)

/-- `Indexer._build_new_index`. -/
def _build_new_index (fs : List FsFile) : RawFileIndex :=
  let raw_files := scan_raw_files fs
  if raw_files.isEmpty then RawFileIndex.empty
  else
    let processed_infos := _process_files_parallel fs raw_files
    processed_infos.foldl RawFileIndex.add RawFileIndex.empty

/-- One iteration of the `potentially_updated_files` loop of
`Indexer.update_index_incrementally`: `stat` the path (skipping it on
error), look up the first index record with that path, and, when the
on-disk size differs, drop the record and queue the path for
reprocessing. -/
def candStep (fs : List FsFile) (acc : RawFileIndex × List Str) (p : Str) :
    RawFileIndex × List Str :=
  match fsFind fs p with
  | none => acc
  | some f =>
    match acc.1.get_all_files.find? (fun info => info.path = p) with
    | none => acc
    | some existing_info =>
      if existing_info.file_size ≠ f.size then
        ((acc.1.remove p).1, acc.2 ++ [p])
      else acc

/-- `Indexer.update_index_incrementally`. -/
def update_index_incrementally (index : RawFileIndex) (fs : List FsFile) :
    RawFileIndex :=
  let current_files := dedupList (scan_raw_files fs)
  let existing_files := dedupList (index.get_all_files.map RawFileInfo.path)
  let new_files := current_files.filter (fun p => p ∉ existing_files)
  let deleted_files := existing_files.filter (fun p => p ∉ current_files)
  let potentially_updated_files :=
    current_files.filter (fun p => p ∈ existing_files)
  let index₁ :=
    deleted_files.foldl (fun idx p => (RawFileIndex.remove idx p).1) index
  let stepped := potentially_updated_files.foldl (candStep fs) (index₁, [])
  let files_to_process := new_files ++ stepped.2
  let processed_infos := _process_files_parallel fs files_to_process
  processed_infos.foldl RawFileIndex.add stepped.1

/-! ## `Indexer.build_index` and persistence (`IndexCache`) -/

/-- The repository's exception hierarchy (src/exceptions.py), restricted to
the classes `build_index` can raise; `processingError` is the re-raise
wrapper `raise ProcessingError(...) from e`, whose argument is the chained
cause. -/
inductive IndexerError where
  | fileOperationError
  | processingError (cause : IndexerError)
deriving DecidableEq, Repr

/-- `IndexCache.save_directory_index`, with the outcome of the JSON write
supplied by the environment (`save_ok`): the method first stamps
`source_directory` and `last_updated` on the in-memory index, then either
completes or raises `FileOperationError`. -/
def save_directory_index (source_dir : Str) (index : RawFileIndex)
    (now : PyDateTime) (save_ok : Bool) : Except IndexerError RawFileIndex :=
  let stamped :=
    { index with source_directory := some source_dir, last_updated := some now }
  if save_ok then Except.ok stamped
  else Except.error IndexerError.fileOperationError

/-- `Indexer.build_index`.  `cached` is what `load_directory_index`
returned (`none` for a missing or unparsable cache file); `save_ok` is the
outcome of the cache write; the whole body runs inside a `try` whose
`except` re-raises everything as `ProcessingError`. -/
def build_index (fs : List FsFile) (source_dir : Str)
    (cached : Option RawFileIndex) (force_rebuild : Bool)
    (now : PyDateTime) (save_ok : Bool) : Except IndexerError RawFileIndex :=
  let existing_index := if force_rebuild then none else cached
  let updated_index :=
    match existing_index with
    | some idx => update_index_incrementally idx fs
    | none => _build_new_index fs
  match save_directory_index source_dir updated_index now save_ok with
  | Except.ok saved => Except.ok saved
  | Except.error e => Except.error (IndexerError.processingError e)

/-! ## `matcher.Matcher` -/

/-- `Matcher._find_matching_raw`.  The filter in the timestamp branch is the
Python test `raw_info.capture_datetime and raw_info.capture_datetime ==
jpeg_info.capture_datetime` (a `datetime` object is always truthy, and in
this branch `jpeg_info.capture_datetime` is the non-`None` value `dt`). -/
def _find_matching_raw (index : RawFileIndex) (jpeg_info : JpegFileInfo) :
    Option MatchResult :=
  let basename_matches := index.find_by_basename jpeg_info.basename
  if basename_matches.isEmpty then none
  else
    match jpeg_info.capture_datetime with
    | some dt =>
      let datetime_matches := basename_matches.filter fun raw_info =>
        match raw_info.capture_datetime with
        | some c => decide (c = dt)
        | none => false
      match datetime_matches with
      | [] => none
      | selected_raw :: _ =>
        some { jpeg_path := jpeg_info.path, raw_path := selected_raw.path,
               match_method := MatchMethod.basename_and_datetime }
    | none =>
      match basename_matches with
      | [] => none
      | selected_raw :: _ =>
        some { jpeg_path := jpeg_info.path, raw_path := selected_raw.path,
               match_method := MatchMethod.basename_only }

/-! ## `copier.Copier` -/

/-- The failure messages `_copy_single_file_with_error` and `copy_files`
can record (each tags one Python message string / exception family). -/
inductive CopyFailReason where
  | mkdir_failed
  | source_missing
  | disk_full
  | permission_error
  | os_error
deriving DecidableEq, Repr

/-- Per-call filesystem behaviour for one `_copy_single_file_with_error`
invocation: whether the source exists, whether the destination name is
already taken, whether `source_path.stat()` succeeds, what
`_check_disk_space` answers (it already returns `True` on its own internal
error), and how `shutil.copy2` ends (`none` = success). -/
structure FileEnv where
  source_exists : Bool
  target_exists : Bool
  stat_ok : Bool
  disk_space_ok : Bool
  copy_result : Option CopyFailReason
deriving DecidableEq, Repr

/-- The three result strings of `_copy_single_file_with_error`. -/
inductive CopyOutcome where
  | success
  | skipped
  | failed
deriving DecidableEq, Repr

/-- `models.CopyResult`.  `errors` pairs a path with the recorded
message. -/
structure CopyResult where
  success : Nat
  skipped : Nat
  failed : Nat
  errors : List (Str × CopyFailReason)
deriving DecidableEq, Repr

/-- `Copier._copy_single_file_with_error`: missing source fails; an
existing destination is skipped; a successful `stat` combined with a
negative space check fails (a failing `stat` skips the space check and
proceeds); otherwise the `shutil.copy2` outcome decides. -/
def _copy_single_file_with_error (env : FileEnv) :
    CopyOutcome × Option CopyFailReason :=
  if !env.source_exists then
    (CopyOutcome.failed, some CopyFailReason.source_missing)
  else if env.target_exists then
    (CopyOutcome.skipped, none)
  else if env.stat_ok && !env.disk_space_ok then
    (CopyOutcome.failed, some CopyFailReason.disk_full)
  else
    match env.copy_result with
    | none => (CopyOutcome.success, none)
    | some r => (CopyOutcome.failed, some r)

/-- `Copier.copy_files` (with `progress_logger=None`).  Each match carries
the `FileEnv` describing how the filesystem behaves for it.  A failing
`target_dir.mkdir` short-circuits with everything counted failed and a
single error entry; otherwise the loop tallies each match into exactly one
counter and accumulates per-file error messages. -/
def copy_files (match_results : List (MatchResult × FileEnv)) (target_dir : Str)
    (mkdir_ok : Bool) : CopyResult :=
  if !mkdir_ok then
    { success := 0, skipped := 0, failed := match_results.length,
      errors := [(target_dir, CopyFailReason.mkdir_failed)] }
  else
    match_results.foldl
      (fun acc me =>
        let step := _copy_single_file_with_error me.2
        match step.1 with
        | CopyOutcome.success => { acc with success := acc.success + 1 }
        | CopyOutcome.skipped => { acc with skipped := acc.skipped + 1 }
        | CopyOutcome.failed =>
          let recorded :=
            match step.2 with
            | some m => [(me.1.raw_path, m)]
            | none => []
          { acc with failed := acc.failed + 1, errors := acc.errors ++ recorded })
      { success := 0, skipped := 0, failed := 0, errors := [] }

/-! ## General list lemmas -/

lemma filter_length_eq_imp_eq {α : Type} (q : α → Bool) :
    ∀ l : List α, (l.filter q).length = l.length → l.filter q = l := by
  intro l
  induction l with
  | nil => intro _; rfl
  | cons a l ih =>
    intro h
    by_cases hq : q a = true
    · simp only [List.filter_cons, if_pos hq, List.length_cons] at h ⊢
      have := ih (Nat.succ_injective h)
      rw [this]
    · exfalso
      simp only [List.filter_cons, if_neg hq, List.length_cons] at h
      have hle := List.length_filter_le q l
      omega

lemma filter_length_lt_iff {α : Type} (q : α → Bool) (l : List α) :
    (l.filter q).length < l.length ↔ ∃ a ∈ l, q a = false := by
  constructor
  · intro h
    by_contra hc
    push_neg at hc
    have hall : ∀ a ∈ l, q a = true := by
      intro a ha
      cases hqa : q a with
      | false => exact absurd hqa (hc a ha)
      | true => rfl
    rw [List.filter_eq_self.mpr hall] at h
    exact Nat.lt_irrefl _ h
  · intro ⟨a, ha, hqa⟩
    have hle := List.length_filter_le q l
    rcases Nat.lt_or_ge ((l.filter q).length) l.length with h | h
    · exact h
    · exfalso
      have heq : (l.filter q).length = l.length := Nat.le_antisymm hle h
      have hfe := filter_length_eq_imp_eq q l heq
      have hmem : a ∈ l.filter q := hfe.symm ▸ ha
      rw [List.mem_filter] at hmem
      rw [hmem.2] at hqa
      exact Bool.noConfusion hqa

lemma not_filter_length_lt_eq {α : Type} (q : α → Bool) (l : List α)
    (h : ¬ (l.filter q).length < l.length) : l.filter q = l := by
  have hle := List.length_filter_le q l
  exact filter_length_eq_imp_eq q l (Nat.le_antisymm hle (Nat.le_of_not_lt h))

/-! ## Deduplication lemmas -/

lemma mem_dedupAux {α : Type} [DecidableEq α] (a : α) :
    ∀ (l seen : List α), a ∈ dedupAux l seen ↔ a ∈ l ∧ a ∉ seen := by
  intro l
  induction l with
  | nil => intro seen; simp [dedupAux]
  | cons b l ih =>
    intro seen
    simp only [dedupAux]
    by_cases hb : b ∈ seen
    · rw [if_pos hb, ih]
      simp only [List.mem_cons]
      constructor
      · rintro ⟨h1, h2⟩
        exact ⟨Or.inr h1, h2⟩
      · rintro ⟨rfl | h1, h2⟩
        · exact absurd hb h2
        · exact ⟨h1, h2⟩
    · rw [if_neg hb]
      simp only [List.mem_cons, ih, List.mem_cons]
      constructor
      · rintro (rfl | ⟨h1, h2⟩)
        · exact ⟨Or.inl rfl, hb⟩
        · exact ⟨Or.inr h1, fun hs => h2 (Or.inr hs)⟩
      · rintro ⟨rfl | h1, h2⟩
        · exact Or.inl rfl
        · by_cases hab : a = b
          · exact Or.inl hab
          · exact Or.inr ⟨h1, fun hs => hs.elim hab h2⟩

lemma mem_dedupList {α : Type} [DecidableEq α] (a : α) (l : List α) :
    a ∈ dedupList l ↔ a ∈ l := by
  unfold dedupList
  rw [mem_dedupAux]
  simp

lemma nodup_dedupAux {α : Type} [DecidableEq α] :
    ∀ (l seen : List α), (dedupAux l seen).Nodup := by
  intro l
  induction l with
  | nil => intro seen; simp [dedupAux]
  | cons b l ih =>
    intro seen
    simp only [dedupAux]
    by_cases hb : b ∈ seen
    · rw [if_pos hb]; exact ih seen
    · rw [if_neg hb]
      rw [List.nodup_cons]
      refine ⟨fun hmem => ?_, ih (b :: seen)⟩
      rw [mem_dedupAux] at hmem
      exact hmem.2 (List.mem_cons_self b seen)

lemma nodup_dedupList {α : Type} [DecidableEq α] (l : List α) :
    (dedupList l).Nodup := nodup_dedupAux l []

/-! ## Sorting lemmas -/

lemma insertLe_perm (p : Str) : ∀ l : List Str, (insertLe p l).Perm (p :: l) := by
  intro l
  induction l with
  | nil => simp [insertLe]
  | cons q qs ih =>
    simp only [insertLe]
    by_cases h : strLe p q = true
    · rw [if_pos h]
    · rw [if_neg h]
      exact (ih.cons q).trans (List.Perm.swap p q qs)

lemma sortStrs_perm (l : List Str) : (sortStrs l).Perm l := by
  induction l with
  | nil => simp [sortStrs]
  | cons p qs ih =>
    simp only [sortStrs, List.foldr_cons]
    exact (insertLe_perm p _).trans (ih.cons p)

lemma mem_sortStrs (q : Str) (l : List Str) : q ∈ sortStrs l ↔ q ∈ l :=
  (sortStrs_perm l).mem_iff

lemma mem_scan_raw_files (p : Str) (fs : List FsFile) :
    p ∈ scan_raw_files fs ↔ (∃ f ∈ fs, f.path = p) ∧ is_raw_file p = true := by
  unfold scan_raw_files
  rw [mem_sortStrs, List.mem_filter, List.mem_map]

/-! ## Index structure lemmas -/

/-- All values stored in an ordered dictionary, in bucket order. -/
def flatVals {α β : Type} (m : List (α × List β)) : List β :=
  (m.map Prod.snd).flatten

lemma get_all_files_eq_flatVals (idx : RawFileIndex) :
    idx.get_all_files = flatVals idx.by_basename := rfl

lemma flatVals_dictAppend_perm {α β : Type} [DecidableEq α] (k : α) (v : β) :
    ∀ m : List (α × List β), (flatVals (dictAppend m k v)).Perm (flatVals m ++ [v]) := by
  intro m
  induction m with
  | nil => simp [dictAppend, flatVals]
  | cons kv rest ih =>
    obtain ⟨k₀, vs⟩ := kv
    simp only [dictAppend]
    by_cases h : k = k₀
    · rw [if_pos h]
      simp only [flatVals, List.map_cons, List.flatten_cons]
      rw [List.append_assoc, List.append_assoc]
      exact List.Perm.append_left vs List.perm_append_comm
    · rw [if_neg h]
      simp only [flatVals, List.map_cons, List.flatten_cons] at ih ⊢
      rw [List.append_assoc]
      exact List.Perm.append_left vs ih

lemma add_get_all_files_perm (idx : RawFileIndex) (info : RawFileInfo) :
    ((idx.add info).get_all_files).Perm (idx.get_all_files ++ [info]) := by
  simp only [get_all_files_eq_flatVals, RawFileIndex.add]
  exact flatVals_dictAppend_perm info.basename info idx.by_basename

lemma foldl_add_get_all_files_perm (infos : List RawFileInfo) :
    ∀ idx : RawFileIndex,
      ((infos.foldl RawFileIndex.add idx).get_all_files).Perm
        (idx.get_all_files ++ infos) := by
  induction infos with
  | nil => intro idx; simp
  | cons i rest ih =>
    intro idx
    simp only [List.foldl_cons]
    have h1 := ih (idx.add i)
    have h2 := List.Perm.append_right rest (add_get_all_files_perm idx i)
    have h3 := h1.trans h2
    rw [List.append_assoc] at h3
    simpa using h3

lemma add_file_count (idx : RawFileIndex) (info : RawFileInfo) :
    (idx.add info).file_count = idx.file_count + 1 := rfl

lemma foldl_add_file_count (infos : List RawFileInfo) :
    ∀ idx : RawFileIndex,
      (infos.foldl RawFileIndex.add idx).file_count =
        idx.file_count + infos.length := by
  induction infos with
  | nil => intro idx; simp
  | cons i rest ih =>
    intro idx
    simp only [List.foldl_cons, List.length_cons, ih (idx.add i), add_file_count]
    omega

lemma add_source_directory (idx : RawFileIndex) (info : RawFileInfo) :
    (idx.add info).source_directory = idx.source_directory := rfl

lemma foldl_add_source_directory (infos : List RawFileInfo) :
    ∀ idx : RawFileIndex,
      (infos.foldl RawFileIndex.add idx).source_directory =
        idx.source_directory := by
  induction infos with
  | nil => intro idx; rfl
  | cons i rest ih => intro idx; simp only [List.foldl_cons]; exact ih (idx.add i)

lemma flatVals_bucketsRemove {α : Type} (p : Str) :
    ∀ m : List (α × List RawFileInfo),
      flatVals (bucketsRemove p m).1 =
        (flatVals m).filter (fun info => info.path ≠ p) := by
  intro m
  induction m with
  | nil => simp [bucketsRemove, flatVals]
  | cons kv rest ih =>
    obtain ⟨k, infos⟩ := kv
    simp only [bucketsRemove]
    by_cases hlt : (infos.filter (fun info => info.path ≠ p)).length < infos.length
    · rw [if_pos hlt]
      by_cases he : (infos.filter (fun info => info.path ≠ p)).isEmpty = true
      · rw [if_pos he]
        rw [List.isEmpty_iff] at he
        simp only [flatVals, List.map_cons, List.flatten_cons, List.filter_append]
        rw [he, List.nil_append]
        simpa [flatVals] using ih
      · rw [if_neg he]
        simp only [flatVals, List.map_cons, List.flatten_cons, List.filter_append]
        simp only [flatVals] at ih
        rw [ih]
    · rw [if_neg hlt]
      have heq := not_filter_length_lt_eq (fun info => info.path ≠ p) infos hlt
      simp only [flatVals, List.map_cons, List.flatten_cons, List.filter_append]
      simp only [flatVals] at ih
      rw [ih, heq]

lemma bucketsRemove_flag {α : Type} (p : Str) :
    ∀ m : List (α × List RawFileInfo),
      (bucketsRemove p m).2 = true ↔ ∃ info ∈ flatVals m, info.path = p := by
  intro m
  induction m with
  | nil => simp [bucketsRemove, flatVals]
  | cons kv rest ih =>
    obtain ⟨k, infos⟩ := kv
    simp only [bucketsRemove]
    by_cases hlt : (infos.filter (fun info => info.path ≠ p)).length < infos.length
    · rw [if_pos hlt]
      simp only [true_iff]
      rw [filter_length_lt_iff] at hlt
      obtain ⟨a, ha, hqa⟩ := hlt
      refine ⟨a, ?_, ?_⟩
      · simp only [flatVals, List.map_cons, List.flatten_cons, List.mem_append]
        exact Or.inl ha
      · by_contra hne
        simp [hne] at hqa
    · rw [if_neg hlt]
      rw [ih]
      have heq := not_filter_length_lt_eq (fun info => info.path ≠ p) infos hlt
      constructor
      · rintro ⟨info, hmem, hpath⟩
        refine ⟨info, ?_, hpath⟩
        simp only [flatVals, List.map_cons, List.flatten_cons, List.mem_append]
        exact Or.inr hmem
      · rintro ⟨info, hmem, hpath⟩
        simp only [flatVals, List.map_cons, List.flatten_cons, List.mem_append]
          at hmem
        rcases hmem with hmem | hmem
        · exfalso
          have : info ∈ infos.filter (fun info => info.path ≠ p) := by
            rw [heq]; exact hmem
          rw [List.mem_filter] at this
          simp [hpath] at this
        · exact ⟨info, hmem, hpath⟩

lemma remove_get_all_files (idx : RawFileIndex) (p : Str) :
    ((idx.remove p).1).get_all_files =
      idx.get_all_files.filter (fun info => info.path ≠ p) := by
  simp only [get_all_files_eq_flatVals, RawFileIndex.remove]
  exact flatVals_bucketsRemove p idx.by_basename

lemma remove_by_datetime (idx : RawFileIndex) (p : Str) :
    flatVals ((idx.remove p).1).by_datetime =
      (flatVals idx.by_datetime).filter (fun info => info.path ≠ p) := by
  simp only [RawFileIndex.remove]
  exact flatVals_bucketsRemove p idx.by_datetime

lemma remove_flag (idx : RawFileIndex) (p : Str) :
    (idx.remove p).2 = true ↔
      (∃ info ∈ idx.get_all_files, info.path = p) ∨
      (∃ info ∈ flatVals idx.by_datetime, info.path = p) := by
  simp only [RawFileIndex.remove, get_all_files_eq_flatVals, Bool.or_eq_true]
  rw [bucketsRemove_flag, bucketsRemove_flag]

lemma remove_file_count (idx : RawFileIndex) (p : Str) :
    ((idx.remove p).1).file_count =
      if (idx.remove p).2 then idx.file_count - 1 else idx.file_count := rfl

lemma remove_source_directory (idx : RawFileIndex) (p : Str) :
    ((idx.remove p).1).source_directory = idx.source_directory := rfl

/-! ## Matcher lemmas -/

lemma dt_filter_pred (dt : PyDateTime) (r : RawFileInfo) :
    ((match r.capture_datetime with
      | some c => decide (c = dt)
      | none => false) = true) ↔ r.capture_datetime = some dt := by
  cases hc : r.capture_datetime with
  | none => simp
  | some c => simp

lemma find_matching_raw_some_dt (index : RawFileIndex) (j : JpegFileInfo)
    (dt : PyDateTime) (h : j.capture_datetime = some dt) :
    _find_matching_raw index j =
      match (index.find_by_basename j.basename).filter
          (fun raw_info =>
            match raw_info.capture_datetime with
            | some c => decide (c = dt)
            | none => false) with
      | [] => none
      | selected_raw :: _ =>
        some { jpeg_path := j.path, raw_path := selected_raw.path,
               match_method := MatchMethod.basename_and_datetime } := by
  unfold _find_matching_raw
  rw [h]
  by_cases hbm : (index.find_by_basename j.basename).isEmpty = true
  · rw [if_pos hbm]
    rw [List.isEmpty_iff] at hbm
    rw [hbm]
    rfl
  · rw [if_neg hbm]

lemma find_matching_raw_none_dt (index : RawFileIndex) (j : JpegFileInfo)
    (h : j.capture_datetime = none) :
    _find_matching_raw index j =
      match index.find_by_basename j.basename with
      | [] => none
      | selected_raw :: _ =>
        some { jpeg_path := j.path, raw_path := selected_raw.path,
               match_method := MatchMethod.basename_only } := by
  unfold _find_matching_raw
  rw [h]
  by_cases hbm : (index.find_by_basename j.basename).isEmpty = true
  · rw [if_pos hbm]
    rw [List.isEmpty_iff] at hbm
    rw [hbm]
  · rw [if_neg hbm]

/-- C2: for a JPEG record with a present capture timestamp,
`_find_matching_raw` yields a `basename_and_datetime` match iff some record
in the basename bucket has exactly that timestamp; with candidates but no
exact timestamp the result is `none`; and no other match method can ever be
produced in this branch. -/
theorem claim_C2_exact_timestamp_strictness (index : RawFileIndex)
    (jpeg_info : JpegFileInfo) (dt : PyDateTime)
    (h : jpeg_info.capture_datetime = some dt) :
    ((∃ m, _find_matching_raw index jpeg_info = some m ∧
        m.match_method = MatchMethod.basename_and_datetime) ↔
      ∃ r ∈ index.find_by_basename jpeg_info.basename,
        r.capture_datetime = some dt) ∧
    ((¬ ∃ r ∈ index.find_by_basename jpeg_info.basename,
        r.capture_datetime = some dt) →
      _find_matching_raw index jpeg_info = none) ∧
    (∀ m, _find_matching_raw index jpeg_info = some m →
      m.match_method = MatchMethod.basename_and_datetime) := by
  rw [find_matching_raw_some_dt index jpeg_info dt h]
  cases hf : (index.find_by_basename jpeg_info.basename).filter
      (fun raw_info =>
        match raw_info.capture_datetime with
        | some c => decide (c = dt)
        | none => false) with
  | nil =>
    simp only [List.filter_eq_nil_iff] at hf
    refine ⟨?_, ?_, ?_⟩
    · constructor
      · rintro ⟨m, hm, _⟩
        exact absurd hm (by simp)
      · rintro ⟨r, hr, hcd⟩
        exact absurd ((dt_filter_pred dt r).mpr hcd) (hf r hr)
    · intro _; rfl
    · intro m hm
      exact absurd hm (by simp)
  | cons selected_raw rest =>
    have hmem : selected_raw ∈ index.find_by_basename jpeg_info.basename ∧
        selected_raw.capture_datetime = some dt := by
      have hin : selected_raw ∈
          (index.find_by_basename jpeg_info.basename).filter
            (fun raw_info =>
              match raw_info.capture_datetime with
              | some c => decide (c = dt)
              | none => false) := by
        rw [hf]; exact List.mem_cons_self selected_raw rest
      rw [List.mem_filter] at hin
      exact ⟨hin.1, (dt_filter_pred dt selected_raw).mp hin.2⟩
    refine ⟨?_, ?_, ?_⟩
    · constructor
      · intro _
        exact ⟨selected_raw, hmem.1, hmem.2⟩
      · intro _
        exact ⟨{ jpeg_path := jpeg_info.path, raw_path := selected_raw.path,
                 match_method := MatchMethod.basename_and_datetime },
               rfl, rfl⟩
    · intro hno
      exact absurd ⟨selected_raw, hmem.1, hmem.2⟩ hno
    · intro m hm
      have := Option.some_injective _ hm.symm
      rw [this]

/-- C2 witness: a one-record index and a JPEG with the same basename and
the same timestamp produce a `basename_and_datetime` match. -/
theorem claim_C2_witness :
    ∃ m, _find_matching_raw
        (RawFileIndex.empty.add
          { path := "/s/a.cr2".data, basename := "a".data,
            capture_datetime := some 5, file_size := 100 })
        { path := "/t/a.jpg".data, basename := "a".data,
          capture_datetime := some 5 } = some m ∧
      m.match_method = MatchMethod.basename_and_datetime := by
  exact (claim_C2_exact_timestamp_strictness
      (RawFileIndex.empty.add
        { path := "/s/a.cr2".data, basename := "a".data,
          capture_datetime := some 5, file_size := 100 })
      { path := "/t/a.jpg".data, basename := "a".data,
        capture_datetime := some 5 } 5 rfl).1.mpr
    ⟨{ path := "/s/a.cr2".data, basename := "a".data,
       capture_datetime := some 5, file_size := 100 }, by decide, rfl⟩

/-- C6: for a JPEG record with no capture timestamp, `_find_matching_raw`
returns `none` when the basename bucket is empty, and otherwise a
`basename_only` match on the first bucket entry (insertion order). -/
theorem claim_C6_basename_only_fallback (index : RawFileIndex)
    (jpeg_info : JpegFileInfo) (h : jpeg_info.capture_datetime = none) :
    (index.find_by_basename jpeg_info.basename = [] →
      _find_matching_raw index jpeg_info = none) ∧
    (∀ r rest, index.find_by_basename jpeg_info.basename = r :: rest →
      _find_matching_raw index jpeg_info =
        some { jpeg_path := jpeg_info.path, raw_path := r.path,
               match_method := MatchMethod.basename_only }) := by
  rw [find_matching_raw_none_dt index jpeg_info h]
  constructor
  · intro hnil
    rw [hnil]
  · intro r rest hcons
    rw [hcons]

/-- C6 witness: an index whose `a` bucket holds two records (insertion
order) matches a timestampless JPEG to the first one, via
`basename_only`. -/
theorem claim_C6_witness :
    _find_matching_raw
        ((RawFileIndex.empty.add
          { path := "/s/a.cr2".data, basename := "a".data,
            capture_datetime := some 5, file_size := 100 }).add
          { path := "/s2/a.nef".data, basename := "a".data,
            capture_datetime := none, file_size := 7 })
        { path := "/t/a.jpg".data, basename := "a".data,
          capture_datetime := none } =
      some { jpeg_path := "/t/a.jpg".data, raw_path := "/s/a.cr2".data,
             match_method := MatchMethod.basename_only } := by
  exact (claim_C6_basename_only_fallback
      ((RawFileIndex.empty.add
        { path := "/s/a.cr2".data, basename := "a".data,
          capture_datetime := some 5, file_size := 100 }).add
        { path := "/s2/a.nef".data, basename := "a".data,
          capture_datetime := none, file_size := 7 })
      { path := "/t/a.jpg".data, basename := "a".data,
        capture_datetime := none } rfl).2
    { path := "/s/a.cr2".data, basename := "a".data,
      capture_datetime := some 5, file_size := 100 }
    [{ path := "/s2/a.nef".data, basename := "a".data,
       capture_datetime := none, file_size := 7 }]
    (by decide)

/-! ## Copier lemmas -/

/-- The loop of `copy_files`, for reuse in the conservation proof. -/
def copyFold (acc : CopyResult) (me : MatchResult × FileEnv) : CopyResult :=
  let step := _copy_single_file_with_error me.2
  match step.1 with
  | CopyOutcome.success => { acc with success := acc.success + 1 }
  | CopyOutcome.skipped => { acc with skipped := acc.skipped + 1 }
  | CopyOutcome.failed =>
    let recorded :=
      match step.2 with
      | some m => [(me.1.raw_path, m)]
      | none => []
    { acc with failed := acc.failed + 1, errors := acc.errors ++ recorded }

lemma copy_files_eq_fold (match_results : List (MatchResult × FileEnv))
    (target_dir : Str) :
    copy_files match_results target_dir true =
      match_results.foldl copyFold
        { success := 0, skipped := 0, failed := 0, errors := [] } := rfl

lemma copyFold_sum (me : MatchResult × FileEnv) (acc : CopyResult) :
    (copyFold acc me).success + (copyFold acc me).skipped +
        (copyFold acc me).failed =
      acc.success + acc.skipped + acc.failed + 1 := by
  rcases hstep : (_copy_single_file_with_error me.2).1 with _ | _ | _ <;>
    simp only [copyFold, hstep] <;> omega

lemma foldl_copyFold_sum (l : List (MatchResult × FileEnv)) :
    ∀ acc : CopyResult,
      ((l.foldl copyFold acc).success + (l.foldl copyFold acc).skipped +
          (l.foldl copyFold acc).failed) =
        acc.success + acc.skipped + acc.failed + l.length := by
  induction l with
  | nil => intro acc; simp
  | cons me rest ih =>
    intro acc
    simp only [List.foldl_cons, List.length_cons]
    rw [ih (copyFold acc me), copyFold_sum]
    omega

/-- C10: `copy_files` conserves the match count — every match lands in
exactly one of the success / skipped / failed counters — and a failing
`mkdir` yields `(0, 0, n)` with a single error entry for the target
directory. -/
theorem claim_C10_copy_outcome_conservation
    (match_results : List (MatchResult × FileEnv)) (target_dir : Str)
    (mkdir_ok : Bool) :
    ((copy_files match_results target_dir mkdir_ok).success +
      (copy_files match_results target_dir mkdir_ok).skipped +
      (copy_files match_results target_dir mkdir_ok).failed =
        match_results.length) ∧
    (mkdir_ok = false →
      copy_files match_results target_dir mkdir_ok =
        { success := 0, skipped := 0, failed := match_results.length,
          errors := [(target_dir, CopyFailReason.mkdir_failed)] }) := by
  cases mkdir_ok with
  | false =>
    refine ⟨?_, fun _ => rfl⟩
    show 0 + 0 + match_results.length = match_results.length
    omega
  | true =>
    refine ⟨?_, fun hc => Bool.noConfusion hc⟩
    rw [copy_files_eq_fold, foldl_copyFold_sum]
    simp

/-- C10 witness: conservation at a concrete two-element batch (one skipped
destination, one failed copy) and the mkdir-failure shape at the same
batch. -/
theorem claim_C10_witness :
    ((copy_files
        [({ jpeg_path := "/t/a.jpg".data, raw_path := "/s/a.cr2".data,
            match_method := MatchMethod.basename_and_datetime },
          { source_exists := true, target_exists := true, stat_ok := true,
            disk_space_ok := true, copy_result := none }),
         ({ jpeg_path := "/t/b.jpg".data, raw_path := "/s/b.cr2".data,
            match_method := MatchMethod.basename_only },
          { source_exists := false, target_exists := false, stat_ok := true,
            disk_space_ok := true, copy_result := none })]
        "/out".data false).failed = 2) := by
  have h := claim_C10_copy_outcome_conservation
    [({ jpeg_path := "/t/a.jpg".data, raw_path := "/s/a.cr2".data,
        match_method := MatchMethod.basename_and_datetime },
      { source_exists := true, target_exists := true, stat_ok := true,
        disk_space_ok := true, copy_result := none }),
     ({ jpeg_path := "/t/b.jpg".data, raw_path := "/s/b.cr2".data,
        match_method := MatchMethod.basename_only },
      { source_exists := false, target_exists := false, stat_ok := true,
        disk_space_ok := true, copy_result := none })]
    "/out".data false
  rw [h.2 rfl]
  rfl

/-! ## Scanner claims -/

lemma pathNameOf_append_slash (d s : Str) :
    pathNameOf (d ++ '/' :: s) = pathNameOf s := by
  unfold pathNameOf
  rw [List.foldl_append, List.foldl_cons]
  simp

lemma pathSuffix_append_slash (d s : Str) :
    pathSuffix (d ++ '/' :: s) = pathSuffix s := by
  unfold pathSuffix
  rw [pathNameOf_append_slash]

lemma is_raw_file_append_slash (d s : Str) :
    is_raw_file (d ++ '/' :: s) = is_raw_file s := by
  unfold is_raw_file
  rw [pathSuffix_append_slash]

lemma is_jpeg_file_append_slash (d s : Str) :
    is_jpeg_file (d ++ '/' :: s) = is_jpeg_file s := by
  unfold is_jpeg_file
  rw [pathSuffix_append_slash]

/-- C7 counterexample: two paths whose extension differs only in letter
case are NOT classified identically — the mixed-case spelling `.Cr2` is
rejected while `.cr2` is accepted, and likewise `.Jpg` against `.jpg`.
The membership test `file_path.suffix in RAW_EXTENSIONS` is
case-sensitive; the set holds only the all-lower and all-upper
spellings. -/
theorem claim_C7_counterexample :
    is_raw_file "/d/photo.cr2".data = true ∧
    is_raw_file "/d/photo.Cr2".data = false ∧
    is_jpeg_file "/d/photo.jpg".data = true ∧
    is_jpeg_file "/d/photo.Jpg".data = false := by decide

/-- C7 amended: the scanner accepts exactly the all-lowercase and
all-uppercase spellings of the listed RAW / JPEG extensions (upper and
lower case of every listed format are both accepted, in any directory),
rejects mixed-case spellings such as `.Cr2` and `.Jpg`, and
`scan_raw_files` selects exactly the paths passing `is_raw_file`. -/
theorem claim_C7_extension_case_handling (d : Str) :
    (∀ e ∈ RAW_EXTENSIONS, is_raw_file (d ++ '/' :: 'x' :: e) = true) ∧
    (∀ e ∈ JPEG_EXTENSIONS, is_jpeg_file (d ++ '/' :: 'x' :: e) = true) ∧
    is_raw_file (d ++ '/' :: "x.Cr2".data) = false ∧
    is_jpeg_file (d ++ '/' :: "x.Jpg".data) = false ∧
    (∀ p : Str, is_raw_file p = true ↔ pathSuffix p ∈ RAW_EXTENSIONS) ∧
    (∀ fs (p : Str), p ∈ scan_raw_files fs ↔
      (∃ f ∈ fs, f.path = p) ∧ is_raw_file p = true) := by
  refine ⟨?_, ?_, ?_, ?_, ?_, ?_⟩
  · simp only [is_raw_file_append_slash]
    decide
  · simp only [is_jpeg_file_append_slash]
    decide
  · rw [is_raw_file_append_slash]
    decide
  · rw [is_jpeg_file_append_slash]
    decide
  · intro p
    unfold is_raw_file
    exact decide_eq_true_iff
  · intro fs p
    exact mem_scan_raw_files p fs

/-- C7 witness: the amended statement instantiated in a concrete
directory, specialised to the upper-case Canon extension. -/
theorem claim_C7_witness :
    is_raw_file ("/dir".data ++ '/' :: 'x' :: ".CR2".data) = true := by
  exact (claim_C7_extension_case_handling "/dir".data).1 ".CR2".data (by decide)

/-! ## build_index persistence claims -/

/-- C4 counterexample: with a one-file source directory and a failing
cache write, `build_index` ends in a raised `ProcessingError` (chaining
the `FileOperationError` from `save_directory_index`); no index value
reaches the caller, contradicting the claim that the built index is still
returned alongside a distinguishable persistence error. -/
theorem claim_C4_counterexample :
    build_index [{ path := "/s/a.cr2".data, size := 100, ts := some 1 }]
        "/s".data none false 7 false =
      Except.error (IndexerError.processingError
        IndexerError.fileOperationError) := by
  rfl

/-- C4 amended: whenever the cache write fails, `build_index` raises
`ProcessingError` wrapping the `FileOperationError` — for every filesystem,
cached index, and flag combination — and the in-memory index is not
returned to the caller; on a successful write the (stamped) index is
returned. -/
theorem claim_C4_persistence_failure (fs : List FsFile) (source_dir : Str)
    (cached : Option RawFileIndex) (force_rebuild : Bool) (now : PyDateTime) :
    (build_index fs source_dir cached force_rebuild now false =
      Except.error (IndexerError.processingError
        IndexerError.fileOperationError)) ∧
    (∀ idx, build_index fs source_dir cached force_rebuild now false ≠
      Except.ok idx) ∧
    (build_index fs source_dir cached force_rebuild now true =
      Except.ok
        { (match (if force_rebuild then none else cached) with
           | some idx => update_index_incrementally idx fs
           | none => _build_new_index fs) with
          source_directory := some source_dir, last_updated := some now }) := by
  refine ⟨rfl, ?_, rfl⟩
  intro idx hc
  rw [show build_index fs source_dir cached force_rebuild now false =
    Except.error (IndexerError.processingError
      IndexerError.fileOperationError) from rfl] at hc
  exact Except.noConfusion hc

/-! ## RawFileIndex.remove claims -/

/-- C5 counterexample: with two records of the same path in the index,
`remove` deletes both records (all structures end empty) but decrements
`file_count` by one, leaving it at 1 instead of the 0 the claim's
"decrement by the number of records deleted" demands. -/
theorem claim_C5_counterexample :
    (((RawFileIndex.empty.add
        { path := "/a/x.cr2".data, basename := "x".data,
          capture_datetime := none, file_size := 5 }).add
        { path := "/a/x.cr2".data, basename := "x".data,
          capture_datetime := none, file_size := 5 }).get_all_files.length = 2) ∧
    ((((RawFileIndex.empty.add
        { path := "/a/x.cr2".data, basename := "x".data,
          capture_datetime := none, file_size := 5 }).add
        { path := "/a/x.cr2".data, basename := "x".data,
          capture_datetime := none, file_size := 5 }).remove
        "/a/x.cr2".data).1.get_all_files.length = 0) ∧
    ((((RawFileIndex.empty.add
        { path := "/a/x.cr2".data, basename := "x".data,
          capture_datetime := none, file_size := 5 }).add
        { path := "/a/x.cr2".data, basename := "x".data,
          capture_datetime := none, file_size := 5 }).remove
        "/a/x.cr2".data).1.file_count = 1) := by decide

/-- C5 amended: `remove p` deletes every record whose path equals `p`
from the primary collection (`get_all_files`, backed by `by_basename`) and
from the `by_datetime` map, returns `true` exactly when at least one entry
was deleted from either structure, and decrements `file_count` by exactly
one — not by the number of entries deleted — when the flag is set, leaving
it unchanged otherwise. -/
theorem claim_C5_remove_semantics (idx : RawFileIndex) (p : Str) :
    (((idx.remove p).1).get_all_files =
      idx.get_all_files.filter (fun info => info.path ≠ p)) ∧
    (flatVals ((idx.remove p).1).by_datetime =
      (flatVals idx.by_datetime).filter (fun info => info.path ≠ p)) ∧
    ((idx.remove p).2 = true ↔
      (∃ info ∈ idx.get_all_files, info.path = p) ∨
      (∃ info ∈ flatVals idx.by_datetime, info.path = p)) ∧
    (((idx.remove p).1).file_count =
      if (idx.remove p).2 then idx.file_count - 1 else idx.file_count) :=
  ⟨remove_get_all_files idx p, remove_by_datetime idx p,
   remove_flag idx p, remove_file_count idx p⟩

/-! ## Bucket invariant (C9) and add/remove inverse (C8) -/

/-- Every key of an ordered dictionary is bound to a non-empty bucket. -/
def goodBuckets {α β : Type} (m : List (α × List β)) : Prop :=
  ∀ kv ∈ m, kv.2 ≠ []

lemma goodBuckets_nil {α β : Type} : goodBuckets ([] : List (α × List β)) := by
  intro kv hkv
  exact absurd hkv (List.not_mem_nil kv)

lemma goodBuckets_dictAppend {α β : Type} [DecidableEq α] (k : α) (v : β) :
    ∀ m : List (α × List β), goodBuckets m → goodBuckets (dictAppend m k v) := by
  intro m
  induction m with
  | nil =>
    intro _ kv hkv
    simp only [dictAppend, List.mem_singleton] at hkv
    subst hkv
    simp
  | cons kv₀ rest ih =>
    obtain ⟨k₀, vs⟩ := kv₀
    intro hg kv hkv
    simp only [dictAppend] at hkv
    by_cases h : k = k₀
    · rw [if_pos h] at hkv
      rcases List.mem_cons.mp hkv with rfl | hkv
      · simp
      · exact hg kv (List.mem_cons_of_mem _ hkv)
    · rw [if_neg h] at hkv
      rcases List.mem_cons.mp hkv with rfl | hkv
      · exact hg (k₀, vs) (List.mem_cons_self _ _)
      · exact ih (fun kv2 hkv2 => hg kv2 (List.mem_cons_of_mem _ hkv2)) kv hkv

lemma goodBuckets_bucketsRemove {α : Type} (p : Str) :
    ∀ m : List (α × List RawFileInfo),
      goodBuckets m → goodBuckets (bucketsRemove p m).1 := by
  intro m
  induction m with
  | nil => intro _; simpa [bucketsRemove] using goodBuckets_nil
  | cons kv₀ rest ih =>
    obtain ⟨k, infos⟩ := kv₀
    intro hg
    have hgr : goodBuckets rest :=
      fun kv2 hkv2 => hg kv2 (List.mem_cons_of_mem _ hkv2)
    simp only [bucketsRemove]
    by_cases hlt : (infos.filter (fun info => info.path ≠ p)).length < infos.length
    · rw [if_pos hlt]
      by_cases he : (infos.filter (fun info => info.path ≠ p)).isEmpty = true
      · rw [if_pos he]
        exact ih hgr
      · rw [if_neg he]
        intro kv hkv
        rcases List.mem_cons.mp hkv with rfl | hkv
        · simpa [List.isEmpty_iff] using he
        · exact ih hgr kv hkv
    · rw [if_neg hlt]
      intro kv hkv
      rcases List.mem_cons.mp hkv with rfl | hkv
      · exact hg (k, infos) (List.mem_cons_self _ _)
      · exact ih hgr kv hkv

/-- Combined invariant for one index value. -/
def goodIndex (idx : RawFileIndex) : Prop :=
  goodBuckets idx.by_basename ∧ goodBuckets idx.by_datetime

lemma goodIndex_empty : goodIndex RawFileIndex.empty :=
  ⟨goodBuckets_nil, goodBuckets_nil⟩

lemma goodIndex_add (idx : RawFileIndex) (info : RawFileInfo)
    (h : goodIndex idx) : goodIndex (idx.add info) := by
  refine ⟨goodBuckets_dictAppend _ _ _ h.1, ?_⟩
  show goodBuckets (match info.capture_datetime with
    | some dt => dictAppend idx.by_datetime dt info
    | none => idx.by_datetime)
  cases info.capture_datetime with
  | none => exact h.2
  | some dt => exact goodBuckets_dictAppend _ _ _ h.2

lemma goodIndex_remove (idx : RawFileIndex) (p : Str)
    (h : goodIndex idx) : goodIndex ((idx.remove p).1) :=
  ⟨goodBuckets_bucketsRemove p _ h.1, goodBuckets_bucketsRemove p _ h.2⟩

lemma flatVals_nil_of_good {α β : Type} (m : List (α × List β))
    (hg : goodBuckets m) (hf : flatVals m = []) : m = [] := by
  cases m with
  | nil => rfl
  | cons kv rest =>
    exfalso
    obtain ⟨k, vs⟩ := kv
    have hv : vs ≠ [] := hg (k, vs) (List.mem_cons_self _ _)
    simp only [flatVals, List.map_cons, List.flatten_cons,
      List.append_eq_nil] at hf
    exact hv hf.1

/-- One `add` or one `remove` call on the index. -/
inductive IndexOp where
  | addOp (info : RawFileInfo)
  | removeOp (p : Str)

/-- A sequence of add/remove calls applied to a fresh `RawFileIndex`. -/
def applyOps (ops : List IndexOp) : RawFileIndex :=
  ops.foldl
    (fun idx op =>
      match op with
      | IndexOp.addOp info => idx.add info
      | IndexOp.removeOp p => (idx.remove p).1)
    RawFileIndex.empty

lemma goodIndex_foldl_ops (ops : List IndexOp) :
    ∀ idx : RawFileIndex, goodIndex idx →
      goodIndex (ops.foldl
        (fun idx op =>
          match op with
          | IndexOp.addOp info => idx.add info
          | IndexOp.removeOp p => (idx.remove p).1) idx) := by
  induction ops with
  | nil => intro idx h; exact h
  | cons op rest ih =>
    intro idx h
    rw [List.foldl_cons]
    cases op with
    | addOp info => exact ih _ (goodIndex_add idx info h)
    | removeOp p => exact ih _ (goodIndex_remove idx p h)

/-- C9: after any sequence of `add` / `remove` operations starting from an
empty `RawFileIndex`, every key present in `by_basename` and every key
present in `by_datetime` is bound to a non-empty record list. -/
theorem claim_C9_no_empty_buckets (ops : List IndexOp) :
    goodBuckets (applyOps ops).by_basename ∧
    goodBuckets (applyOps ops).by_datetime :=
  goodIndex_foldl_ops ops RawFileIndex.empty goodIndex_empty

/-- Repeatedly call `RawFileIndex.remove`, once per listed path. -/
def removeAllPaths (idx : RawFileIndex) (ps : List Str) : RawFileIndex :=
  ps.foldl (fun i p => (i.remove p).1) idx

lemma removeAllPaths_get_all_files (ps : List Str) :
    ∀ idx : RawFileIndex,
      (removeAllPaths idx ps).get_all_files =
        idx.get_all_files.filter (fun info => decide (info.path ∉ ps)) := by
  induction ps with
  | nil =>
    intro idx
    simp [removeAllPaths]
  | cons p ps ih =>
    intro idx
    show (removeAllPaths ((idx.remove p).1) ps).get_all_files = _
    rw [ih ((idx.remove p).1), remove_get_all_files, List.filter_filter]
    apply List.filter_congr
    intro a _
    by_cases h1 : a.path = p <;> by_cases h2 : a.path ∈ ps <;>
      simp [h1, h2]

lemma removeAllPaths_by_datetime (ps : List Str) :
    ∀ idx : RawFileIndex,
      flatVals (removeAllPaths idx ps).by_datetime =
        (flatVals idx.by_datetime).filter
          (fun info => decide (info.path ∉ ps)) := by
  induction ps with
  | nil =>
    intro idx
    simp [removeAllPaths]
  | cons p ps ih =>
    intro idx
    show flatVals (removeAllPaths ((idx.remove p).1) ps).by_datetime = _
    rw [ih ((idx.remove p).1), remove_by_datetime, List.filter_filter]
    apply List.filter_congr
    intro a _
    by_cases h1 : a.path = p <;> by_cases h2 : a.path ∈ ps <;>
      simp [h1, h2]

lemma removeAllPaths_file_count (ps : List Str) :
    ∀ idx : RawFileIndex, ps.Nodup →
      (∀ p ∈ ps, ∃ info ∈ idx.get_all_files, info.path = p) →
      (removeAllPaths idx ps).file_count = idx.file_count - ps.length := by
  induction ps with
  | nil =>
    intro idx _ _
    simp [removeAllPaths]
  | cons p ps ih =>
    intro idx hnd hcov
    have hflag : (idx.remove p).2 = true :=
      (remove_flag idx p).mpr (Or.inl (hcov p (List.mem_cons_self _ _)))
    have hcount : ((idx.remove p).1).file_count = idx.file_count - 1 := by
      rw [remove_file_count, if_pos hflag]
    rw [List.nodup_cons] at hnd
    have hcov2 : ∀ q ∈ ps, ∃ info ∈ ((idx.remove p).1).get_all_files,
        info.path = q := by
      intro q hq
      obtain ⟨info, hmem, hpath⟩ := hcov q (List.mem_cons_of_mem _ hq)
      refine ⟨info, ?_, hpath⟩
      rw [remove_get_all_files, List.mem_filter]
      refine ⟨hmem, ?_⟩
      simp only [decide_eq_true_eq]
      intro hne
      rw [hpath] at hne
      exact hnd.1 (hne ▸ hq)
    show (removeAllPaths ((idx.remove p).1) ps).file_count = _
    rw [ih ((idx.remove p).1) hnd.2 hcov2, hcount]
    simp only [List.length_cons]
    omega

lemma goodIndex_foldl_add (l : List RawFileInfo) :
    ∀ idx : RawFileIndex, goodIndex idx →
      goodIndex (l.foldl RawFileIndex.add idx) := by
  induction l with
  | nil => intro idx h; exact h
  | cons i rest ih =>
    intro idx h
    rw [List.foldl_cons]
    exact ih _ (goodIndex_add idx i h)

lemma goodIndex_removeAllPaths (ps : List Str) :
    ∀ idx : RawFileIndex, goodIndex idx →
      goodIndex (removeAllPaths idx ps) := by
  induction ps with
  | nil => intro idx h; exact h
  | cons p rest ih =>
    intro idx h
    show goodIndex (removeAllPaths ((idx.remove p).1) rest)
    exact ih _ (goodIndex_remove idx p h)

lemma add_by_datetime_perm (idx : RawFileIndex) (info : RawFileInfo) :
    (flatVals (idx.add info).by_datetime).Perm
      (flatVals idx.by_datetime ++
        (if info.capture_datetime.isSome then [info] else [])) := by
  show (flatVals (match info.capture_datetime with
    | some dt => dictAppend idx.by_datetime dt info
    | none => idx.by_datetime)).Perm _
  cases info.capture_datetime with
  | none => simp
  | some dt =>
    simpa using flatVals_dictAppend_perm dt info idx.by_datetime

lemma foldl_add_by_datetime_perm (l : List RawFileInfo) :
    ∀ idx : RawFileIndex,
      (flatVals (l.foldl RawFileIndex.add idx).by_datetime).Perm
        (flatVals idx.by_datetime ++
          l.filter (fun i => i.capture_datetime.isSome)) := by
  induction l with
  | nil => intro idx; simp
  | cons i rest ih =>
    intro idx
    rw [List.foldl_cons]
    refine (ih (idx.add i)).trans ?_
    have h1 := List.Perm.append_right
      (rest.filter (fun i => i.capture_datetime.isSome))
      (add_by_datetime_perm idx i)
    refine h1.trans ?_
    rw [List.append_assoc, List.filter_cons]
    cases hc : i.capture_datetime.isSome with
    | true =>
      simp only [hc, if_pos]
      exact List.Perm.append_left _ (List.perm_middle.symm.trans (by simp))
    | false =>
      simp [hc]

/-- C8 counterexample: adding the same record twice and then calling
`remove` once per added path empties both lookup maps but leaves
`file_count` at 1, because the single `remove` call deletes both entries
while decrementing the count once and the second call finds nothing. -/
theorem claim_C8_counterexample :
    ((removeAllPaths
        ([{ path := "/a/x.cr2".data, basename := "x".data,
            capture_datetime := some 3, file_size := 5 },
          { path := "/a/x.cr2".data, basename := "x".data,
            capture_datetime := some 3, file_size := 5 }].foldl
          RawFileIndex.add RawFileIndex.empty)
        ["/a/x.cr2".data, "/a/x.cr2".data]).by_basename = []) ∧
    ((removeAllPaths
        ([{ path := "/a/x.cr2".data, basename := "x".data,
            capture_datetime := some 3, file_size := 5 },
          { path := "/a/x.cr2".data, basename := "x".data,
            capture_datetime := some 3, file_size := 5 }].foldl
          RawFileIndex.add RawFileIndex.empty)
        ["/a/x.cr2".data, "/a/x.cr2".data]).by_datetime = []) ∧
    ((removeAllPaths
        ([{ path := "/a/x.cr2".data, basename := "x".data,
            capture_datetime := some 3, file_size := 5 },
          { path := "/a/x.cr2".data, basename := "x".data,
            capture_datetime := some 3, file_size := 5 }].foldl
          RawFileIndex.add RawFileIndex.empty)
        ["/a/x.cr2".data, "/a/x.cr2".data]).file_count = 1) := by decide

/-- C8 amended: for every record sequence whose paths are pairwise
distinct (the situation the spec's per-path uniqueness invariant
describes), adding all records to a fresh index and then removing each
added path brings `file_count` back to 0 and empties both lookup maps.
(With duplicated paths the maps still empty but the count stays positive —
see the counterexample.) -/
theorem claim_C8_add_remove_inverse (records : List RawFileInfo)
    (hnd : (records.map RawFileInfo.path).Nodup) :
    ((removeAllPaths (records.foldl RawFileIndex.add RawFileIndex.empty)
        (records.map RawFileInfo.path)).file_count = 0) ∧
    ((removeAllPaths (records.foldl RawFileIndex.add RawFileIndex.empty)
        (records.map RawFileInfo.path)).by_basename = []) ∧
    ((removeAllPaths (records.foldl RawFileIndex.add RawFileIndex.empty)
        (records.map RawFileInfo.path)).by_datetime = []) := by
  set idx := records.foldl RawFileIndex.add RawFileIndex.empty with hidx
  have hrecs : (idx.get_all_files).Perm records := by
    have h := foldl_add_get_all_files_perm records RawFileIndex.empty
    simpa using h
  have hgood : goodIndex (removeAllPaths idx (records.map RawFileInfo.path)) :=
    goodIndex_removeAllPaths _ idx (goodIndex_foldl_add records _ goodIndex_empty)
  refine ⟨?_, ?_, ?_⟩
  · have hcount : idx.file_count = (0 : Int) + records.length := by
      rw [hidx]
      exact foldl_add_file_count records RawFileIndex.empty
    have hcov : ∀ p ∈ records.map RawFileInfo.path,
        ∃ info ∈ idx.get_all_files, info.path = p := by
      intro p hp
      obtain ⟨r, hr, rfl⟩ := List.mem_map.mp hp
      exact ⟨r, hrecs.mem_iff.mpr hr, rfl⟩
    rw [removeAllPaths_file_count _ idx hnd hcov, hcount]
    simp [List.length_map]
  · apply flatVals_nil_of_good _ hgood.1
    rw [← get_all_files_eq_flatVals, removeAllPaths_get_all_files,
      List.filter_eq_nil_iff]
    intro info hmem
    simp only [decide_eq_true_eq, Decidable.not_not]
    exact List.mem_map_of_mem RawFileInfo.path (hrecs.mem_iff.mp hmem)
  · apply flatVals_nil_of_good _ hgood.2
    rw [removeAllPaths_by_datetime, List.filter_eq_nil_iff]
    intro info hmem
    simp only [decide_eq_true_eq, Decidable.not_not]
    have hdt := (foldl_add_by_datetime_perm records RawFileIndex.empty).mem_iff.mp
      (by rw [← hidx] at *; exact hmem)
    simp only [flatVals, RawFileIndex.empty, List.map_nil, List.flatten_nil,
      List.nil_append, List.mem_filter] at hdt
    exact List.mem_map_of_mem RawFileInfo.path hdt.1

/-- C8 witness: the amended inverse property at a concrete two-record
sequence with distinct paths. -/
theorem claim_C8_witness :
    ((removeAllPaths
        ([{ path := "/a/x.cr2".data, basename := "x".data,
            capture_datetime := some 3, file_size := 5 },
          { path := "/b/y.nef".data, basename := "y".data,
            capture_datetime := none, file_size := 9 }].foldl
          RawFileIndex.add RawFileIndex.empty)
        (["/a/x.cr2".data, "/b/y.nef".data])).file_count = 0) := by
  have h := claim_C8_add_remove_inverse
    [{ path := "/a/x.cr2".data, basename := "x".data,
       capture_datetime := some 3, file_size := 5 },
     { path := "/b/y.nef".data, basename := "y".data,
       capture_datetime := none, file_size := 9 }] (by decide)
  exact h.1

/-! ## Serialization round-trip (C3) -/

/-- The record a `files` entry decodes to in `from_dict`. -/
def dataToInfo (fd : FileData) : RawFileInfo :=
  { path := fd.path, basename := fd.basename,
    capture_datetime := fd.capture_datetime, file_size := fd.file_size }

/-- The `files` entry `to_dict` encodes a record to. -/
def infoToData (info : RawFileInfo) : FileData :=
  { path := info.path, basename := info.basename,
    capture_datetime := info.capture_datetime, file_size := info.file_size }

/-- The index state `from_dict` has built just before folding in the
`files` list. -/
def fromDictBase (d : IndexDict) : RawFileIndex :=
  { RawFileIndex.empty with
    source_directory :=
      match d.source_directory with
      | some s => if s = [] then none else some s
      | none => none
    last_updated := d.last_updated }

lemma from_dict_eq_foldl (d : IndexDict) :
    RawFileIndex.from_dict d =
      (d.files.map dataToInfo).foldl RawFileIndex.add (fromDictBase d) := by
  rw [List.foldl_map]
  unfold RawFileIndex.from_dict fromDictBase dataToInfo
  cases hs : d.source_directory with
  | none =>
    cases ht : d.last_updated with
    | none => rfl
    | some t => rfl
  | some s =>
    by_cases hse : s = []
    · cases ht : d.last_updated with
      | none =>
        simp [hse]
        rfl
      | some t =>
        simp [hse]
        rfl
    · cases ht : d.last_updated with
      | none =>
        simp [hse]
        rfl
      | some t => simp [hse]

lemma fromDictBase_get_all_files (d : IndexDict) :
    (fromDictBase d).get_all_files = [] := rfl

lemma fromDictBase_file_count (d : IndexDict) :
    (fromDictBase d).file_count = 0 := rfl

lemma to_dict_files_map (I : RawFileIndex) :
    (I.to_dict).files = I.get_all_files.map infoToData := rfl

lemma map_dataToInfo_infoToData (l : List RawFileInfo) :
    (l.map infoToData).map dataToInfo = l := by
  rw [List.map_map]
  have h : dataToInfo ∘ infoToData = id := funext fun r => rfl
  rw [h, List.map_id]

/-- C3: deserialising a serialised index (with the source object's
write-time invariant `file_count = number of records`, and a
`source_directory` that is not the empty string — `str(Path(...))` is never
empty) reproduces the record set, the `source_directory` and the
`file_count`; moreover on ANY stored document the deserialised count is the
length of the stored `files` list, never the stored `file_count` field. -/
theorem claim_C3_round_trip (I : RawFileIndex)
    (hsd : I.source_directory ≠ some [])
    (hfc : I.file_count = (I.get_all_files.length : Int)) :
    ((RawFileIndex.from_dict I.to_dict).get_all_files).Perm I.get_all_files ∧
    (RawFileIndex.from_dict I.to_dict).source_directory =
      I.source_directory ∧
    (RawFileIndex.from_dict I.to_dict).file_count = I.file_count ∧
    (∀ d : IndexDict,
      (RawFileIndex.from_dict d).file_count = (d.files.length : Int)) := by
  have hshape := from_dict_eq_foldl I.to_dict
  have hfiles : (I.to_dict.files.map dataToInfo) = I.get_all_files := by
    rw [to_dict_files_map, map_dataToInfo_infoToData]
  refine ⟨?_, ?_, ?_, ?_⟩
  · rw [hshape, hfiles]
    have h := foldl_add_get_all_files_perm I.get_all_files
      (fromDictBase I.to_dict)
    rw [fromDictBase_get_all_files] at h
    simpa using h
  · rw [hshape, foldl_add_source_directory]
    show (fromDictBase I.to_dict).source_directory = I.source_directory
    unfold fromDictBase RawFileIndex.to_dict
    cases hs : I.source_directory with
    | none => rfl
    | some s =>
      have hne : s ≠ [] := by
        intro hcon
        exact hsd (by rw [hs, hcon])
      simp [hne]
  · rw [hshape, foldl_add_file_count, fromDictBase_file_count, hfiles, hfc]
    omega
  · intro d
    rw [from_dict_eq_foldl d, foldl_add_file_count, fromDictBase_file_count]
    simp [List.length_map]

/-- C3 witness: round-trip of a concrete two-record index with a set
source directory and a consistent count. -/
theorem claim_C3_witness :
    (RawFileIndex.from_dict
        (RawFileIndex.to_dict
          { ((RawFileIndex.empty.add
              { path := "/s/a.cr2".data, basename := "a".data,
                capture_datetime := some 4, file_size := 10 }).add
              { path := "/s/b.nef".data, basename := "b".data,
                capture_datetime := none, file_size := 20 }) with
            source_directory := some "/s".data })).source_directory =
      some "/s".data := by
  have h := claim_C3_round_trip
    { ((RawFileIndex.empty.add
        { path := "/s/a.cr2".data, basename := "a".data,
          capture_datetime := some 4, file_size := 10 }).add
        { path := "/s/b.nef".data, basename := "b".data,
          capture_datetime := none, file_size := 20 }) with
      source_directory := some "/s".data }
    (by decide) (by decide)
  exact h.2.1

/-! ## Differential update (C1) -/

/-- The record the indexer constructs for a filesystem entry. -/
def mkRec (f : FsFile) : RawFileInfo :=
  { path := f.path, basename := get_basename f.path,
    capture_datetime := f.ts, file_size := f.size }

lemma fsFind_eq_self (fs : List FsFile) (hn : (fs.map FsFile.path).Nodup) :
    ∀ f ∈ fs, fsFind fs f.path = some f := by
  induction fs with
  | nil => intro f hf; exact absurd hf (List.not_mem_nil f)
  | cons g rest ih =>
    intro f hf
    rw [List.map_cons, List.nodup_cons] at hn
    rcases List.mem_cons.mp hf with rfl | hf
    · unfold fsFind
      rw [List.find?_cons]
      simp
    · unfold fsFind
      rw [List.find?_cons]
      have hne : ¬ (g.path = f.path) := by
        intro hc
        exact hn.1 (hc ▸ List.mem_map_of_mem FsFile.path hf)
      have hd : decide (g.path = f.path) = false := by simp [hne]
      rw [hd]
      exact ih hn.2 f hf

lemma fsFind_spec (fs : List FsFile) (p : Str) (f : FsFile)
    (h : fsFind fs p = some f) : f ∈ fs ∧ f.path = p := by
  unfold fsFind at h
  refine ⟨List.mem_of_find?_eq_some h, ?_⟩
  have := List.find?_some h
  simpa using this

lemma process_files_mem (fs : List FsFile) (ps : List Str) (r : RawFileInfo) :
    r ∈ _process_files_parallel fs ps ↔
      ∃ p ∈ ps, ∃ f ∈ fs, fsFind fs p = some f ∧ r = mkRec f := by
  unfold _process_files_parallel
  rw [List.mem_filterMap]
  constructor
  · rintro ⟨p, hp, hsome⟩
    unfold _process_single_file at hsome
    cases hfind : fsFind fs p with
    | none => rw [hfind] at hsome; exact absurd hsome (by simp)
    | some f =>
      rw [hfind] at hsome
      obtain ⟨hmem, hpath⟩ := fsFind_spec fs p f hfind
      refine ⟨p, hp, f, hmem, hfind, ?_⟩
      have hr := Option.some_injective _ hsome
      rw [← hr]
      unfold mkRec
      rw [hpath]
  · rintro ⟨p, hp, f, hmem, hfind, rfl⟩
    refine ⟨p, hp, ?_⟩
    unfold _process_single_file
    rw [hfind]
    obtain ⟨_, hpath⟩ := fsFind_spec fs p f hfind
    unfold mkRec
    rw [hpath]

lemma build_records_mem (fs : List FsFile)
    (hn : (fs.map FsFile.path).Nodup) (r : RawFileInfo) :
    r ∈ (_build_new_index fs).get_all_files ↔
      ∃ f ∈ fs, is_raw_file f.path = true ∧ r = mkRec f := by
  unfold _build_new_index
  by_cases hempty : (scan_raw_files fs).isEmpty = true
  · rw [if_pos hempty]
    rw [List.isEmpty_iff] at hempty
    constructor
    · intro hmem
      exact absurd hmem (by simp [RawFileIndex.empty, RawFileIndex.get_all_files])
    · rintro ⟨f, hf, hraw, rfl⟩
      exfalso
      have : f.path ∈ scan_raw_files fs :=
        (mem_scan_raw_files f.path fs).mpr ⟨⟨f, hf, rfl⟩, hraw⟩
      rw [hempty] at this
      exact List.not_mem_nil _ this
  · rw [if_neg hempty]
    have hperm := foldl_add_get_all_files_perm
      (_process_files_parallel fs (scan_raw_files fs)) RawFileIndex.empty
    rw [hperm.mem_iff]
    have hnil : RawFileIndex.empty.get_all_files = [] := rfl
    rw [hnil, List.nil_append, process_files_mem]
    constructor
    · rintro ⟨p, hp, f, hmem, hfind, rfl⟩
      obtain ⟨hscan, hraw⟩ := (mem_scan_raw_files p fs).mp hp
      obtain ⟨_, hpath⟩ := fsFind_spec fs p f hfind
      exact ⟨f, hmem, by rw [hpath]; exact hraw, rfl⟩
    · rintro ⟨f, hf, hraw, rfl⟩
      refine ⟨f.path, (mem_scan_raw_files f.path fs).mpr ⟨⟨f, hf, rfl⟩, hraw⟩,
        f, hf, fsFind_eq_self fs hn f hf, rfl⟩

/-- The effective test of the `potentially_updated_files` loop body for one
path: a reachable `stat`, a first index record with that path, and a size
mismatch. -/
def needsUpdate (fs : List FsFile) (idx : RawFileIndex) (p : Str) : Bool :=
  match fsFind fs p with
  | none => false
  | some f =>
    match idx.get_all_files.find? (fun info => info.path = p) with
    | none => false
    | some existing_info => decide (existing_info.file_size ≠ f.size)

lemma candStep_eq (fs : List FsFile) (acc : RawFileIndex × List Str) (p : Str) :
    candStep fs acc p =
      if needsUpdate fs acc.1 p then ((acc.1.remove p).1, acc.2 ++ [p])
      else acc := by
  unfold candStep needsUpdate
  cases hfind : fsFind fs p with
  | none => rfl
  | some f =>
    cases hinfo : acc.1.get_all_files.find? (fun info => info.path = p) with
    | none => rfl
    | some existing_info =>
      by_cases hsize : existing_info.file_size ≠ f.size
      · simp [hsize]
      · simp [hsize]

lemma find?_path_filter_ne (p q : Str) (hpq : p ≠ q) :
    ∀ l : List RawFileInfo,
      (l.filter (fun info => info.path ≠ q)).find?
          (fun info => info.path = p) =
        l.find? (fun info => info.path = p) := by
  intro l
  induction l with
  | nil => rfl
  | cons a l ih =>
    by_cases haq : a.path = q
    · have hap : ¬ (a.path = p) := fun hc => hpq (hc.symm.trans haq)
      rw [List.filter_cons, if_neg (by simp [haq]), List.find?_cons]
      rw [show decide (a.path = p) = false by simp [hap]]
      exact ih
    · rw [List.filter_cons, if_pos (by simp [haq]), List.find?_cons,
        List.find?_cons]
      cases hap : decide (a.path = p) with
      | true => rfl
      | false => exact ih

lemma needsUpdate_remove_ne (fs : List FsFile) (idx : RawFileIndex)
    (p q : Str) (hqp : q ≠ p) :
    needsUpdate fs ((idx.remove p).1) q = needsUpdate fs idx q := by
  unfold needsUpdate
  rw [remove_get_all_files, find?_path_filter_ne q p hqp]

lemma nodup_paths_filter (l : List RawFileInfo) (f : RawFileInfo → Bool)
    (hn : (l.map RawFileInfo.path).Nodup) :
    ((l.filter f).map RawFileInfo.path).Nodup :=
  ((List.filter_sublist l).map RawFileInfo.path).nodup hn

lemma find?_path_eq_some_of_mem (l : List RawFileInfo)
    (hn : (l.map RawFileInfo.path).Nodup) :
    ∀ r ∈ l, l.find? (fun info => info.path = r.path) = some r := by
  induction l with
  | nil => intro r hr; exact absurd hr (List.not_mem_nil r)
  | cons a l ih =>
    intro r hr
    rw [List.map_cons, List.nodup_cons] at hn
    rcases List.mem_cons.mp hr with rfl | hr
    · rw [List.find?_cons]
      simp
    · rw [List.find?_cons]
      have hne : decide (a.path = r.path) = false := by
        simp only [decide_eq_false_iff_not]
        intro hc
        exact hn.1 (hc ▸ List.mem_map_of_mem RawFileInfo.path hr)
      rw [hne]
      exact ih hn.2 r hr

lemma candLoop_spec (fs : List FsFile) :
    ∀ (ps : List Str) (idx : RawFileIndex) (u : List Str),
      (idx.get_all_files.map RawFileInfo.path).Nodup → ps.Nodup →
      ((ps.foldl (candStep fs) (idx, u)).1.get_all_files =
        idx.get_all_files.filter
          (fun info => decide (¬ (info.path ∈ ps ∧
            needsUpdate fs idx info.path = true)))) ∧
      ((ps.foldl (candStep fs) (idx, u)).2 =
        u ++ ps.filter (fun p => needsUpdate fs idx p)) := by
  intro ps
  induction ps with
  | nil =>
    intro idx u _ _
    constructor
    · simp
    · simp
  | cons p ps ih =>
    intro idx u hnpaths hnps
    rw [List.nodup_cons] at hnps
    rw [List.foldl_cons, candStep_eq]
    by_cases hneed : needsUpdate fs idx p = true
    · rw [if_pos hneed]
      have hnp' : (((idx.remove p).1).get_all_files.map RawFileInfo.path).Nodup := by
        rw [remove_get_all_files]
        exact nodup_paths_filter _ _ hnpaths
      obtain ⟨h1, h2⟩ := ih ((idx.remove p).1) (u ++ [p]) hnp' hnps.2
      constructor
      · rw [h1, remove_get_all_files, List.filter_filter]
        apply List.filter_congr
        intro a _
        by_cases hap : a.path = p
        · have : ¬ (a.path ≠ p) := by simp [hap]
          simp only [List.mem_cons, hap, hneed]
          simp [hap, hneed]
        · have hnu := needsUpdate_remove_ne fs idx p a.path hap
          simp only [List.mem_cons, hnu]
          by_cases hmem : a.path ∈ ps <;> simp [hap, hmem, hnu]
      · rw [h2, List.filter_cons]
        simp only [hneed, if_pos, List.append_assoc, List.singleton_append]
        congr 1
        congr 1
        apply List.filter_congr
        intro q hq
        have hqp : q ≠ p := fun hc => hnps.1 (hc ▸ hq)
        rw [needsUpdate_remove_ne fs idx p q hqp]
    · rw [if_neg hneed]
      obtain ⟨h1, h2⟩ := ih idx u hnpaths hnps.2
      constructor
      · rw [h1]
        apply List.filter_congr
        intro a _
        by_cases hap : a.path = p
        · have hnot : a.path ∉ ps := hap ▸ hnps.1
          simp [List.mem_cons, hap, hneed, hnot]
        · by_cases hmem : a.path ∈ ps <;> simp [List.mem_cons, hap, hmem]
      · rw [h2, List.filter_cons]
        simp [hneed]

lemma process_single_eq (fs : List FsFile)
    (hn : (fs.map FsFile.path).Nodup) (f : FsFile) (hf : f ∈ fs) :
    _process_single_file fs f.path = some (mkRec f) := by
  unfold _process_single_file
  rw [fsFind_eq_self fs hn f hf]
  rfl

lemma filterMap_process_eq_map (fs : List FsFile)
    (hn : (fs.map FsFile.path).Nodup) :
    ∀ l : List FsFile, (∀ f ∈ l, f ∈ fs) →
      (l.map FsFile.path).filterMap (_process_single_file fs) = l.map mkRec := by
  intro l
  induction l with
  | nil => intro _; rfl
  | cons f l ih =>
    intro hsub
    rw [List.map_cons, List.map_cons, List.filterMap_cons,
      process_single_eq fs hn f (hsub f (List.mem_cons_self f l)),
      ih (fun g hg => hsub g (List.mem_cons_of_mem _ hg))]

lemma build_records_perm (fs : List FsFile)
    (hn : (fs.map FsFile.path).Nodup) :
    ((_build_new_index fs).get_all_files).Perm
      ((fs.filter (fun f => is_raw_file f.path)).map mkRec) := by
  have hfe : fs.filter (is_raw_file ∘ FsFile.path) =
      fs.filter (fun f => is_raw_file f.path) :=
    List.filter_congr (fun f _ => rfl)
  unfold _build_new_index
  by_cases hempty : (scan_raw_files fs).isEmpty = true
  · rw [if_pos hempty]
    rw [List.isEmpty_iff] at hempty
    have hp : (scan_raw_files fs).Perm
        ((fs.map FsFile.path).filter is_raw_file) := sortStrs_perm _
    rw [hempty] at hp
    have hX : (fs.map FsFile.path).filter is_raw_file = [] := by
      have := hp.symm.length_eq
      simp only [List.length_nil] at this
      exact List.eq_nil_of_length_eq_zero this
    rw [List.filter_map, hfe] at hX
    rw [List.map_eq_nil_iff.mp hX]
    simp [RawFileIndex.empty, RawFileIndex.get_all_files]
  · rw [if_neg hempty]
    refine (foldl_add_get_all_files_perm _ _).trans ?_
    rw [show RawFileIndex.empty.get_all_files = [] from rfl, List.nil_append]
    have hscanp : (scan_raw_files fs).Perm
        ((fs.filter (fun f => is_raw_file f.path)).map FsFile.path) := by
      have hp : (scan_raw_files fs).Perm
          ((fs.map FsFile.path).filter is_raw_file) := sortStrs_perm _
      rw [List.filter_map, hfe] at hp
      exact hp
    refine (hscanp.filterMap (_process_single_file fs)).trans ?_
    rw [filterMap_process_eq_map fs hn (fs.filter (fun f => is_raw_file f.path))
      (fun f hf => List.mem_of_mem_filter hf)]

lemma build_paths_nodup (fs : List FsFile)
    (hn : (fs.map FsFile.path).Nodup) :
    ((_build_new_index fs).get_all_files.map RawFileInfo.path).Nodup := by
  have hp := (build_records_perm fs hn).map RawFileInfo.path
  have hB : (((fs.filter (fun f => is_raw_file f.path)).map mkRec).map
      RawFileInfo.path).Nodup := by
    rw [List.map_map]
    have hcomp : (RawFileInfo.path ∘ mkRec) = FsFile.path := funext fun f => rfl
    rw [hcomp]
    exact ((List.filter_sublist fs).map FsFile.path).nodup hn
  exact hp.symm.nodup hB

/-- C1: building an index on the initial filesystem state `fs0` and then
running the differential update against the final state `fs1` yields the
same record set (membership of `RawFileInfo` values, i.e. agreement on
path, basename, capture timestamp, and size) as a full build run on `fs1`
directly.  Hypotheses: each filesystem state lists every path once, and a
file present in both states with an unchanged size has an unchanged
timestamp (the claim's \"additions, removals, and size-changes\" envelope;
same-size metadata edits are the documented size-only-detection
limitation). -/
theorem claim_C1_differential_update_equivalence (fs0 fs1 : List FsFile)
    (hn0 : (fs0.map FsFile.path).Nodup) (hn1 : (fs1.map FsFile.path).Nodup)
    (hts : ∀ f0 ∈ fs0, ∀ f1 ∈ fs1, f0.path = f1.path → f0.size = f1.size →
      f0.ts = f1.ts) :
    ∀ r : RawFileInfo,
      r ∈ (update_index_incrementally (_build_new_index fs0) fs1).get_all_files
        ↔ r ∈ (_build_new_index fs1).get_all_files := by
  intro r
  rw [build_records_mem fs1 hn1 r]
  unfold update_index_incrementally
  dsimp only
  set I0 := _build_new_index fs0 with hI0def
  set cur := dedupList (scan_raw_files fs1) with hcur
  set exi := dedupList (I0.get_all_files.map RawFileInfo.path) with hexi
  set nw := cur.filter (fun p => p ∉ exi) with hnw
  set del := exi.filter (fun p => p ∉ cur) with hdel
  set cand := cur.filter (fun p => p ∈ exi) with hcand
  have hI1eq : del.foldl (fun idx p => (RawFileIndex.remove idx p).1) I0 =
      removeAllPaths I0 del := rfl
  rw [hI1eq]
  set I1 := removeAllPaths I0 del with hI1
  set stepped := cand.foldl (candStep fs1) (I1, []) with hstepped
  have hR0n : (I0.get_all_files.map RawFileInfo.path).Nodup :=
    build_paths_nodup fs0 hn0
  have hmemR0 : ∀ x : RawFileInfo, x ∈ I0.get_all_files ↔
      ∃ f ∈ fs0, is_raw_file f.path = true ∧ x = mkRec f :=
    fun x => build_records_mem fs0 hn0 x
  have hmemcur : ∀ p : Str, p ∈ cur ↔
      ∃ f ∈ fs1, f.path = p ∧ is_raw_file p = true := by
    intro p
    rw [hcur, mem_dedupList, mem_scan_raw_files]
    constructor
    · rintro ⟨⟨f, hf, rfl⟩, hraw⟩
      exact ⟨f, hf, rfl, hraw⟩
    · rintro ⟨f, hf, rfl, hraw⟩
      exact ⟨⟨f, hf, rfl⟩, hraw⟩
  have hmemexi : ∀ p : Str, p ∈ exi ↔
      ∃ x ∈ I0.get_all_files, x.path = p := by
    intro p
    rw [hexi, mem_dedupList, List.mem_map]
  have hcurn : cur.Nodup := by rw [hcur]; exact nodup_dedupList _
  have hcandn : cand.Nodup := by rw [hcand]; exact hcurn.filter _
  have hI1rec : I1.get_all_files =
      I0.get_all_files.filter (fun info => decide (info.path ∉ del)) := by
    rw [hI1]; exact removeAllPaths_get_all_files del I0
  have hI1n : (I1.get_all_files.map RawFileInfo.path).Nodup := by
    rw [hI1rec]; exact nodup_paths_filter _ _ hR0n
  obtain ⟨hstep1, hstep2⟩ := candLoop_spec fs1 cand I1 [] hI1n hcandn
  rw [← hstepped] at hstep1 hstep2
  rw [List.nil_append] at hstep2
  have hfinal := foldl_add_get_all_files_perm
    (_process_files_parallel fs1 (nw ++ stepped.2)) stepped.1
  rw [hfinal.mem_iff, List.mem_append, hstep1, hstep2, process_files_mem]
  constructor
  · rintro (hrec | hproc)
    · -- a record that survived deletion and the size check
      rw [List.mem_filter] at hrec
      obtain ⟨hrecI1, hnotchg⟩ := hrec
      have hrecI1' := hrecI1
      rw [hI1rec, List.mem_filter] at hrecI1'
      obtain ⟨hR0mem, hnotdel⟩ := hrecI1'
      obtain ⟨f0, hf0, hraw0, rfl⟩ := (hmemR0 r).mp hR0mem
      have hexi0 : (mkRec f0).path ∈ exi :=
        (hmemexi _).mpr ⟨mkRec f0, hR0mem, rfl⟩
      have hcur0 : (mkRec f0).path ∈ cur := by
        by_contra hnc
        have hdel0 : (mkRec f0).path ∈ del := by
          rw [hdel, List.mem_filter]
          exact ⟨hexi0, by simpa using hnc⟩
        simp [hdel0] at hnotdel
      obtain ⟨f1, hf1, hpath01, hraw1⟩ := (hmemcur _).mp hcur0
      have hcand0 : (mkRec f0).path ∈ cand := by
        rw [hcand, List.mem_filter]
        exact ⟨hcur0, by simpa using hexi0⟩
      have hneedf : ¬ (needsUpdate fs1 I1 (mkRec f0).path = true) := by
        intro hcontra
        simp [hcand0, hcontra] at hnotchg
      have hfind1 : fsFind fs1 (mkRec f0).path = some f1 := by
        have h2 := fsFind_eq_self fs1 hn1 f1 hf1
        rw [hpath01] at h2
        exact h2
      have hfindrec : I1.get_all_files.find?
          (fun info => info.path = (mkRec f0).path) = some (mkRec f0) :=
        find?_path_eq_some_of_mem _ hI1n _ hrecI1
      have hsz : f0.size = f1.size := by
        unfold needsUpdate at hneedf
        rw [hfind1, hfindrec] at hneedf
        simpa [mkRec] using hneedf
      have hpatheq : f0.path = f1.path := by
        simpa [mkRec] using hpath01.symm
      have hts01 : f0.ts = f1.ts := hts f0 hf0 f1 hf1 hpatheq hsz
      refine ⟨f1, hf1, ?_, ?_⟩
      · rw [← hpatheq]
        simpa [mkRec] using hraw0
      · unfold mkRec
        rw [hpatheq, hts01, hsz]
    · -- a freshly (re)processed record
      obtain ⟨p, hp, f, hf, hfind, rfl⟩ := hproc
      obtain ⟨hfmem, hfpath⟩ := fsFind_spec fs1 p f hfind
      have hpcur : p ∈ cur := by
        rcases List.mem_append.mp hp with h | h
        · rw [hnw, List.mem_filter] at h
          exact h.1
        · rw [List.mem_filter] at h
          have h1 := h.1
          rw [hcand, List.mem_filter] at h1
          exact h1.1
      obtain ⟨f1, hf1, hf1path, hraw⟩ := (hmemcur p).mp hpcur
      refine ⟨f, hfmem, ?_, rfl⟩
      rw [hfpath]
      exact hraw
  · rintro ⟨f1, hf1, hraw1, rfl⟩
    have hpcur : f1.path ∈ cur := (hmemcur _).mpr ⟨f1, hf1, rfl, hraw1⟩
    have hfind1 : fsFind fs1 f1.path = some f1 := fsFind_eq_self fs1 hn1 f1 hf1
    by_cases hpexi : f1.path ∈ exi
    · -- the path was already indexed: candidate file
      have hpcand : f1.path ∈ cand := by
        rw [hcand, List.mem_filter]
        exact ⟨hpcur, by simpa using hpexi⟩
      obtain ⟨x0, hx0mem, hx0path⟩ := (hmemexi _).mp hpexi
      have hnotdel : decide (x0.path ∉ del) = true := by
        simp only [decide_eq_true_eq]
        intro hcon
        rw [hdel, List.mem_filter] at hcon
        have h2 := hcon.2
        rw [hx0path] at h2
        simp [hpcur] at h2
      have hx0I1 : x0 ∈ I1.get_all_files := by
        rw [hI1rec, List.mem_filter]
        exact ⟨hx0mem, hnotdel⟩
      have hfindrec : I1.get_all_files.find?
          (fun info => info.path = f1.path) = some x0 := by
        have h3 := find?_path_eq_some_of_mem _ hI1n x0 hx0I1
        rw [hx0path] at h3
        exact h3
      by_cases hneed : needsUpdate fs1 I1 f1.path = true
      · -- size changed: the path is reprocessed
        refine Or.inr ⟨f1.path, ?_, f1, hf1, hfind1, rfl⟩
        rw [List.mem_append]
        right
        rw [List.mem_filter]
        exact ⟨hpcand, hneed⟩
      · -- unchanged: the old record is kept and equals the fresh one
        left
        obtain ⟨f0, hf0, hraw0, rfl⟩ := (hmemR0 x0).mp hx0mem
        have hszeq : f0.size = f1.size := by
          unfold needsUpdate at hneed
          rw [hfind1, hfindrec] at hneed
          simpa [mkRec] using hneed
        have hpatheq : f0.path = f1.path := by
          simpa [mkRec] using hx0path
        have htseq : f0.ts = f1.ts := hts f0 hf0 f1 hf1 hpatheq hszeq
        have hrec_eq : mkRec f0 = mkRec f1 := by
          unfold mkRec
          rw [hpatheq, htseq, hszeq]
        rw [← hrec_eq]
        rw [List.mem_filter]
        refine ⟨hx0I1, ?_⟩
        · simp only [decide_eq_true_eq]
          rintro ⟨hinc, hneedtrue⟩
          rw [show (mkRec f0).path = f1.path from by
            simpa [mkRec] using hpatheq] at hneedtrue
          exact hneed hneedtrue
    · -- a genuinely new path
      refine Or.inr ⟨f1.path, ?_, f1, hf1, hfind1, rfl⟩
      rw [List.mem_append]
      left
      rw [hnw, List.mem_filter]
      exact ⟨hpcur, by simpa using hpexi⟩

/-- C1 witness: a concrete one-file initial state and two-file final state;
the differential update contains the record a full rebuild of the final
state would contain for the added file. -/
theorem claim_C1_witness :
    ({ path := "/s/b.cr2".data, basename := "b".data,
       capture_datetime := some 2, file_size := 200 } : RawFileInfo) ∈
      (update_index_incrementally
        (_build_new_index
          [{ path := "/s/a.cr2".data, size := 100, ts := some 1 }])
        [{ path := "/s/a.cr2".data, size := 100, ts := some 1 },
         { path := "/s/b.cr2".data, size := 200, ts := some 2 }]).get_all_files := by
  have h := claim_C1_differential_update_equivalence
    [{ path := "/s/a.cr2".data, size := 100, ts := some 1 }]
    [{ path := "/s/a.cr2".data, size := 100, ts := some 1 },
     { path := "/s/b.cr2".data, size := 200, ts := some 2 }]
    (by decide) (by decide) (by decide)
  exact (h _).mpr (by decide)
